import Mathlib

/-!
Verification of the OnlineClinic real-time chat subsystem
(controllers/chats.go, models/chat.go, config/schema.sql, cmd/main.go,
utils/file_handler.go).

The Go code is shallowly embedded as executable Lean definitions:

* The calendar helpers `parseSolarDate` / `SolarToGregorian`
  (utils/file_handler.go) are modeled character-for-character on the
  string-parsing and validation logic; the final Jalali-to-Gregorian
  calendar arithmetic performed by the external `ptime` library (which
  is total on validated triples) is abstracted to the validated
  (year, month, day) triple itself.
* The MySQL store (tables `chats` / `messages` plus the stored
  procedures `CreateChat` and `AddMessage` from config/schema.sql and
  their Go wrappers in models/chat.go) is modeled as a `Store` value
  holding the two tables and the AUTO_INCREMENT counter.  Database
  transport failures are not modeled; the deterministic error cases of
  `AddMessage` (date conversion failure, missing chat, chat-id
  mismatch) are.  `fmt.Errorf` strings are modeled by the inductive
  `ChatError` recording which error fired and its arguments.
* `Client.readPump`'s per-frame body (controllers/chats.go:127-188) is
  `readPumpStep`; the surrounding read loop is `readPump`.  The call to
  `json.Unmarshal` (external library) is modeled as an oracle: each
  wire frame carries its raw bytes (`String`) together with the decode
  result (`Option WSMessage`).  `c.Conn.WriteJSON`/`hub.broadcast`
  interactions are reified as an `Effect` list; the loop body contains
  no register/unregister interaction with the hub, so an empty effect
  list on a frame means the connection is left registered and the loop
  proceeds to the next frame.
* `Hub.Run` (controllers/chats.go:52-75) is `hubStep` / `hubRun`: the
  registry map `Clients` is an insertion-ordered association list from
  connection identity (a `Nat` token standing for the `*Client`
  pointer) to its outbound channel, a buffered queue `Chan` (capacity
  256 per `ServeWs`, controllers/chats.go:107).  Go's nondeterministic
  map iteration order is modeled as the list order.  Channel closes and
  channel sends are reified as a trace of `HAct` actions.
* The shutdown fragment of cmd/main.go:77-79 is `shutdownAll`: it
  iterates the registry and closes each client's socket
  (`client.Conn.Close()`); socket closes are reified as `ShutdownAct`.
-/

/-- Go's `strings.TrimSpace`, on the character list of the string: drop
leading and trailing whitespace. -/
def trimChars (cs : List Char) : List Char :=
  ((cs.dropWhile Char.isWhitespace).reverse.dropWhile Char.isWhitespace).reverse

/-- Go's `strings.Split(s, "-")`, on the character list of the string:
the groups of characters between occurrences of `-` (an empty input
yields one empty group, like Go). -/
def splitOnDash (cs : List Char) : List (List Char) :=
  cs.foldr (fun c acc =>
    if c = '-' then [] :: acc
    else
      match acc with
      | [] => [[c]]
      | g :: gs => (c :: g) :: gs) [[]]

/-- Go's `strconv.Atoi`, on the character list of the string: optional
sign, at least one digit, nothing else.  (Machine-int overflow is not
modeled; the callers below only compare the result against small
bounds.) -/
def atoi (cs : List Char) : Option Int :=
  match cs with
  | [] => none
  | _ =>
    let signed : Bool × List Char :=
      match cs with
      | '-' :: rest => (true, rest)
      | '+' :: rest => (false, rest)
      | _ => (false, cs)
    match signed with
    | (neg, ds) =>
      if ds.isEmpty then none
      else if ds.all (fun c => c.isDigit) then
        let n : Nat := ds.foldl (fun a c => a * 10 + (c.toNat - 48)) 0
        some (if neg then -(n : Int) else (n : Int))
      else none

/-- `parseSolarDate` (utils/file_handler.go:263-286): trim, split on "-",
expect exactly three components, parse each with `strconv.Atoi`, and
validate year ≥ 1, month in [1,12], day in [1,31]. -/
def parseSolarDate (date : String) : Except String (Int × Int × Int) :=
  match splitOnDash (trimChars date.toList) with
  | [p1, p2, p3] =>
    match atoi p1 with
    | none => Except.error ("invalid year: " ++ String.mk p1)
    | some year =>
      if year < 1 then Except.error ("invalid year: " ++ String.mk p1)
      else
        match atoi p2 with
        | none => Except.error ("invalid month: " ++ String.mk p2)
        | some month =>
          if month < 1 ∨ month > 12 then
            Except.error ("invalid month: " ++ String.mk p2)
          else
            match atoi p3 with
            | none => Except.error ("invalid day: " ++ String.mk p3)
            | some day =>
              if day < 1 ∨ day > 31 then
                Except.error ("invalid day: " ++ String.mk p3)
              else Except.ok (year, month, day)
  | _ => Except.error "invalid date format, expected yyyy-MM-dd"

/-- `SolarToGregorian` (utils/file_handler.go:244-260): parse the solar
date string, re-validate month and day bounds, then convert via the
external `ptime` library.  `ptime.Date(...).Time()` is total on the
validated input, so the conversion result is abstracted to the
validated (year, month, day) triple. -/
def SolarToGregorian (date : String) : Except String (Int × Int × Int) :=
  match parseSolarDate date with
  | Except.error e => Except.error e
  | Except.ok (year, month, day) =>
    if month < 1 ∨ month > 12 then Except.error ("invalid month: " ++ toString month)
    else if day < 1 ∨ day > 31 then Except.error ("invalid day: " ++ toString day)
    else Except.ok (year, month, day)

/-- `File` (models/chat.go:48-52).  The Go field `Type` is spelled
`fileType` here because `type` is a Lean keyword. -/
structure File where
  name : String
  fileType : String
  url : String
deriving DecidableEq

/-- `WSMessage` (models/chat.go:55-67), the decoded wire envelope.  The
Go field `Type` is spelled `msgType` here because `type` is a Lean
keyword. -/
structure WSMessage where
  msgType : String
  chatId : Int
  senderId : Int
  receiverId : Int
  message : String
  time : String
  repliedMessage : Option String
  repliedMessageId : Option Int
  date : String
  attachedFile : Option File
  isRead : Bool
deriving DecidableEq

/-- One row of the `chats` table (config/schema.sql): id plus the two
participants in the order the row was created with. -/
structure ChatRow where
  id : Int
  senderId : Int
  receiverId : Int
deriving DecidableEq

/-- One row of the `messages` table, as inserted by the `AddMessage`
stored procedure (config/schema.sql).  `date` holds the converted
Gregorian (year, month, day) triple (the Go code stores
`gregorianDate.Format("2006-01-02")`). -/
structure MessageRow where
  chatId : Int
  senderId : Int
  receiverId : Int
  text : String
  time : String
  repliedMessage : String
  repliedMessageId : Option Int
  date : Int × Int × Int
  attachedFilePath : Option String
  isRead : Bool
deriving DecidableEq

/-- The chat portion of the MySQL database: the `chats` and `messages`
tables plus the AUTO_INCREMENT counter backing `LAST_INSERT_ID()` for
`chats` (MySQL starts it at 1). -/
structure Store where
  chats : List ChatRow
  messages : List MessageRow
  nextChatId : Int
deriving DecidableEq

/-- The WHERE clause shared by `ChatExists` (models/chat.go:278-282) and
the `CreateChat` stored procedure (config/schema.sql):
`(sender_id = s AND receiver_id = r) OR (sender_id = r AND receiver_id = s)`. -/
def pairMatch (row : ChatRow) (senderID receiverID : Int) : Bool :=
  (row.senderId == senderID && row.receiverId == receiverID) ||
  (row.senderId == receiverID && row.receiverId == senderID)

/-- The `SELECT ... WHERE (sender_id = s AND receiver_id = r) OR
(sender_id = r AND receiver_id = s)` lookup shared by `ChatExists`
(models/chat.go:278-283) and the `CreateChat` stored procedure
(config/schema.sql): the first matching row, if any. -/
def findChat (db : Store) (senderID receiverID : Int) : Option ChatRow :=
  db.chats.find? (fun row => pairMatch row senderID receiverID)

/-- `ChatExists` (models/chat.go:276-291): id of the first row matching
either ordering of the pair; `sql.ErrNoRows` is mapped to the sentinel 0.
(Database transport errors are not modeled.) -/
def ChatExists (db : Store) (senderID receiverID : Int) : Int :=
  match findChat db senderID receiverID with
  | some row => row.id
  | none => 0

/-- `CreateChat` stored procedure (config/schema.sql:580-606) together
with its Go wrapper (models/chat.go:69-84): if a row already exists for
the unordered pair (`existing_chat_id IS NOT NULL`), return its id;
otherwise insert a new row and return `LAST_INSERT_ID()`. -/
def CreateChat (db : Store) (senderID receiverID : Int) : Store × Int :=
  match findChat db senderID receiverID with
  | some row => (db, row.id)
  | none =>
    let newId := db.nextChatId
    ({ db with
        chats := db.chats ++ [⟨newId, senderID, receiverID⟩],
        nextChatId := newId + 1 }, newId)

/-- The deterministic error cases of `AddMessage` (models/chat.go:86-131),
standing for the corresponding `fmt.Errorf` results. -/
inductive ChatError where
  | dateConversion (msg : String)
  | noChatExists (senderID receiverID : Int)
  | chatIdMismatch (provided existing : Int)
deriving DecidableEq

/-- `AddMessage` (models/chat.go:86-131): convert the solar date first,
then look up the chat for (sender, receiver), fail if none exists or if
a nonzero caller-supplied chat id disagrees with the looked-up one, and
otherwise insert the message row against the looked-up chat id via the
`AddMessage` stored procedure (config/schema.sql). -/
def AddMessage (db : Store) (chatID senderID receiverID : Int)
    (text timeStr repliedMessage : String) (repliedMessageID : Option Int)
    (hijriDate : String) (attachedFile : Option File) (isRead : Bool) :
    Except ChatError Store :=
  match SolarToGregorian hijriDate with
  | Except.error e => Except.error (ChatError.dateConversion e)
  | Except.ok gregorianDate =>
    let existingChatID := ChatExists db senderID receiverID
    if existingChatID == 0 then
      Except.error (ChatError.noChatExists senderID receiverID)
    else if chatID != 0 && chatID != existingChatID then
      Except.error (ChatError.chatIdMismatch chatID existingChatID)
    else
      let filePath := attachedFile.map (fun f => f.url)
      Except.ok { db with messages := db.messages ++
        [⟨existingChatID, senderID, receiverID, text, timeStr, repliedMessage,
          repliedMessageID, gregorianDate, filePath, isRead⟩] }

/-- The observable interactions of one `readPump` loop iteration
(controllers/chats.go:127-188): a structured error frame written
directly to the originating connection's socket via `WriteJSON`
(controllers/chats.go:179-182), or the raw frame handed to
`hub.broadcast` (controllers/chats.go:187). -/
inductive Effect where
  | errorReply (toConn : Int) (err : ChatError)
  | broadcast (payload : String)
deriving DecidableEq

/-- One inbound wire frame: the raw bytes read from the socket together
with the result of `json.Unmarshal` on them (the external JSON decoder
is modeled as an oracle attached to the frame). -/
structure Frame where
  raw : String
  dec : Option WSMessage
deriving DecidableEq

/-- The chat-resolution step of `readPump`
(controllers/chats.go:149-164): `ChatExists`, then `CreateChat` when no
chat exists yet.  (The Go `continue`-on-database-error branches are not
reachable in the deterministic store model.) -/
def resolveChat (db : Store) (senderID receiverID : Int) : Store × Int :=
  let existingChatID := ChatExists db senderID receiverID
  if existingChatID == 0 then CreateChat db senderID receiverID
  else (db, existingChatID)

/-- The body of `readPump`'s read loop (controllers/chats.go:136-187)
for one frame: drop on decode failure; drop on sender-id mismatch;
resolve/create the chat; stamp the resolved chat id onto the decoded
envelope; persist via `AddMessage` (replying with a structured error to
the originating connection on failure); on success hand the raw frame
to the hub's broadcast channel. -/
def readPumpStep (db : Store) (connID : Int) (raw : String)
    (dec : Option WSMessage) : Store × List Effect :=
  match dec with
  | none => (db, [])
  | some msg =>
    if msg.senderId != connID then (db, [])
    else
      let resolved := resolveChat db msg.senderId msg.receiverId
      let stamped := { msg with chatId := resolved.2 }
      let repliedMessage := stamped.repliedMessage.getD ""
      match AddMessage resolved.1 stamped.chatId stamped.senderId
          stamped.receiverId stamped.message stamped.time repliedMessage
          stamped.repliedMessageId stamped.date stamped.attachedFile
          stamped.isRead with
      | Except.error e => (resolved.1, [Effect.errorReply connID e])
      | Except.ok db2 => (db2, [Effect.broadcast raw])

/-- `readPump`'s read loop (controllers/chats.go:127-188) over a list of
successfully read frames, threading the store and collecting effects in
order.  (Loop exit on read error and the deferred unregister are outside
the per-frame claims modeled here.) -/
def readPump (db : Store) (connID : Int) : List Frame → Store × List Effect
  | [] => (db, [])
  | f :: rest =>
    let r := readPumpStep db connID f.raw f.dec
    let r2 := readPump r.1 connID rest
    (r2.1, r.2 ++ r2.2)

/-- A client's buffered outbound channel (`send chan []byte`): queued
payloads plus the buffer capacity. -/
structure Chan where
  buf : List String
  cap : Nat
deriving DecidableEq

/-- The channel created for each client by `ServeWs`
(controllers/chats.go:107): `make(chan []byte, 256)`. -/
def newChan : Chan := ⟨[], 256⟩

/-- Channel-level actions performed by the hub loop: closing a client's
outbound channel (`close(client.send)`) and enqueuing a payload onto it
(`client.send <- message`). -/
inductive HAct where
  | close (c : Nat)
  | enqueue (c : Nat) (payload : String)
deriving DecidableEq

/-- The hub registry (`Hub.Clients`, controllers/chats.go:26): the set
of registered clients with their outbound channels, keyed by connection
identity (`Nat` tokens standing for `*Client` pointers), in insertion
order. -/
structure HubState where
  clients : List (Nat × Chan)
deriving DecidableEq

/-- The three events consumed by `Hub.Run`'s select loop
(controllers/chats.go:52-75). -/
inductive HubEvent where
  | register (c : Nat)
  | unregister (c : Nat)
  | broadcast (payload : String)
deriving DecidableEq

/-- `if _, ok := h.Clients[client]; ok` — membership of a connection in
the registry. -/
def registered (h : HubState) (c : Nat) : Bool :=
  h.clients.any (fun p => p.1 == c)

/-- The broadcast arm of `Hub.Run` (controllers/chats.go:64-72): for
each registered client, a nonblocking send — enqueue when the buffered
channel has free capacity, otherwise close the channel and drop the
client from the registry. -/
def broadcastAll (m : String) : List (Nat × Chan) → List (Nat × Chan) × List HAct
  | [] => ([], [])
  | p :: rest =>
    let tail := broadcastAll m rest
    if p.2.buf.length < p.2.cap then
      ((p.1, ⟨p.2.buf ++ [m], p.2.cap⟩) :: tail.1, HAct.enqueue p.1 m :: tail.2)
    else
      (tail.1, HAct.close p.1 :: tail.2)

/-- One iteration of `Hub.Run`'s select loop (controllers/chats.go:52-75)
processing one event, returning the new registry and the channel actions
performed. -/
def hubStep (h : HubState) (e : HubEvent) : HubState × List HAct :=
  match e with
  | HubEvent.register c =>
    if registered h c then (h, [])
    else (⟨h.clients ++ [(c, newChan)]⟩, [])
  | HubEvent.unregister c =>
    if registered h c then
      (⟨h.clients.filter (fun p => p.1 != c)⟩, [HAct.close c])
    else (h, [])
  | HubEvent.broadcast m =>
    let r := broadcastAll m h.clients
    (⟨r.1⟩, r.2)

/-- `Hub.Run` over a serialized sequence of events, collecting the trace
of channel actions in order. -/
def hubRun (h : HubState) : List HubEvent → HubState × List HAct
  | [] => (h, [])
  | e :: es =>
    let r := hubStep h e
    let r2 := hubRun r.1 es
    (r2.1, r.2 ++ r2.2)

/-- Whether an event is a registration of connection `c`. -/
def isRegisterOf (c : Nat) : HubEvent → Bool
  | HubEvent.register d => d == c
  | _ => false

/-- Number of registrations of `c` in an event sequence. -/
def regEvents (c : Nat) (es : List HubEvent) : Nat := es.countP (isRegisterOf c)

/-- Whether an action closes `c`'s outbound channel. -/
def isCloseOf (c : Nat) : HAct → Bool
  | HAct.close d => d == c
  | _ => false

/-- Whether an action enqueues onto `c`'s outbound channel. -/
def isEnqueueOf (c : Nat) : HAct → Bool
  | HAct.enqueue d _ => d == c
  | _ => false

/-- Whether an action touches `c`'s outbound channel at all. -/
def touchesOf (c : Nat) (a : HAct) : Bool := isCloseOf c a || isEnqueueOf c a

/-- Number of closes of `c`'s channel in an action trace. -/
def closes (c : Nat) (tr : List HAct) : Nat := tr.countP (isCloseOf c)

/-- Number of actions touching `c`'s channel in an action trace. -/
def touchCount (c : Nat) (tr : List HAct) : Nat := tr.countP (touchesOf c)

/-- Number of registry entries keyed by `c`. -/
def countKey (c : Nat) (l : List (Nat × Chan)) : Nat :=
  l.countP (fun p => p.1 == c)

/-- No enqueue onto `c`'s channel occurs after a close of it anywhere in
the trace (write-after-close freedom for `c`). -/
def noEnqueueAfterClose (c : Nat) : List HAct → Bool
  | [] => true
  | a :: rest =>
    (if isCloseOf c a then rest.all (fun b => !(isEnqueueOf c b)) else true) &&
      noEnqueueAfterClose c rest

/-- Well-formedness of the registry: connection identities are distinct
(a Go map cannot hold duplicate keys). -/
@[reducible]
def WFHub (h : HubState) : Prop := (h.clients.map Prod.fst).Nodup

/-- Socket-level actions of the shutdown path. -/
inductive ShutdownAct where
  | closeSocket (c : Nat)
deriving DecidableEq

/-- The shutdown fragment of `main` (cmd/main.go:77-79): iterate the
hub's registry and call `client.Conn.Close()` on each entry.  The
registry itself is not written to. -/
def shutdownAll (h : HubState) : HubState × List ShutdownAct :=
  (h, h.clients.map (fun p => ShutdownAct.closeSocket p.1))

/-! ### Helper lemmas about the store and the router -/

theorem pairMatch_symm (row : ChatRow) (a b : Int) :
    pairMatch row a b = pairMatch row b a := by
  unfold pairMatch
  exact Bool.or_comm _ _

theorem pairMatch_self_left (n a b : Int) :
    pairMatch ⟨n, a, b⟩ a b = true := by
  simp [pairMatch]

theorem resolveChat_messages (db : Store) (s r : Int) :
    (resolveChat db s r).1.messages = db.messages := by
  by_cases h : (ChatExists db s r == 0) = true
  · cases hfc : findChat db s r with
    | some row => simp [resolveChat, CreateChat, h, hfc]
    | none => simp [resolveChat, CreateChat, h, hfc]
  · simp [resolveChat, h]

theorem resolveChat_nextChatId_pos (db : Store) (s r : Int)
    (h : 0 < db.nextChatId) : 0 < (resolveChat db s r).1.nextChatId := by
  by_cases hz : (ChatExists db s r == 0) = true
  · cases hfc : findChat db s r with
    | some row => simpa [resolveChat, CreateChat, hz, hfc] using h
    | none =>
      simp only [resolveChat, CreateChat, hz, if_true, hfc]
      omega
  · simpa [resolveChat, hz] using h

theorem ChatExists_resolveChat (db : Store) (s r : Int) :
    ChatExists (resolveChat db s r).1 s r = (resolveChat db s r).2 := by
  by_cases hz : (ChatExists db s r == 0) = true
  · cases hfc : findChat db s r with
    | some row =>
      simp only [resolveChat, hz, if_true, CreateChat, hfc]
      simp [ChatExists, hfc]
    | none =>
      simp only [resolveChat, hz, if_true, CreateChat, hfc]
      simp only [ChatExists, findChat] at hfc ⊢
      rw [List.find?_append, hfc, Option.none_or]
      simp [pairMatch]
  · simp [resolveChat, hz]

theorem readPump_cons (db : Store) (u : Int) (f : Frame) (rest : List Frame) :
    readPump db u (f :: rest) =
      ((readPump (readPumpStep db u f.raw f.dec).1 u rest).1,
       (readPumpStep db u f.raw f.dec).2 ++
         (readPump (readPumpStep db u f.raw f.dec).1 u rest).2) := rfl

/-! ### Claim theorems -/

/-- C2: an inbound frame that decodes to an envelope whose `sender_id`
differs from the connection's authenticated user id is silently dropped
(controllers/chats.go:144-147): the store is unchanged (nothing
persisted), no effect is produced (no broadcast, no reply), and the read
loop continues with the remaining frames exactly as if the frame had
never arrived (the loop body never unregisters the connection). -/
theorem sender_mismatch_silently_dropped (db : Store) (u : Int) (raw : String)
    (msg : WSMessage) (h : msg.senderId ≠ u) :
    readPumpStep db u raw (some msg) = (db, []) ∧
    ∀ rest, readPump db u (⟨raw, some msg⟩ :: rest) = readPump db u rest := by
  have h1 : readPumpStep db u raw (some msg) = (db, []) := by
    simp [readPumpStep, h]
  refine ⟨h1, fun rest => ?_⟩
  rw [readPump_cons]
  simp [h1]

theorem sender_mismatch_silently_dropped_witness :
    readPumpStep ⟨[], [], 1⟩ 1 "RAW"
        (some ⟨"chat", 0, 2, 3, "hi", "14:00", none, none, "1403-05-01", none, false⟩) =
      (⟨[], [], 1⟩, []) :=
  (sender_mismatch_silently_dropped ⟨[], [], 1⟩ 1 "RAW"
    ⟨"chat", 0, 2, 3, "hi", "14:00", none, none, "1403-05-01", none, false⟩
    (by decide)).1

/-- C7: an inbound frame that fails to decode as a `WSMessage` is
silently dropped (controllers/chats.go:136-141): the store is unchanged
(nothing persisted), no effect is produced (no broadcast, no reply, no
close), and the read loop continues with the remaining frames; the loop
body never unregisters the connection, so no other connection is
affected. -/
theorem decode_failure_silently_dropped (db : Store) (u : Int) (raw : String) :
    readPumpStep db u raw none = (db, []) ∧
    ∀ rest, readPump db u (⟨raw, none⟩ :: rest) = readPump db u rest := by
  refine ⟨rfl, fun rest => ?_⟩
  rw [readPump_cons]
  rfl

/-- C3: when the persistence step (`AddMessage`) fails for an accepted
envelope, the router broadcasts nothing, writes a single structured
error payload back to the originating connection only
(controllers/chats.go:175-184), leaves the message table untouched, and
the read loop continues with the remaining frames (the connection is
never unregistered by the loop body, so it remains registered and
usable).  The store may still have gained the chat row created by the
earlier `CreateChat` step, which the claim does not constrain. -/
theorem persistence_failure_error_reply_only (db : Store) (u : Int)
    (raw : String) (msg : WSMessage) (e : ChatError)
    (hs : msg.senderId = u)
    (he : AddMessage (resolveChat db msg.senderId msg.receiverId).1
        (resolveChat db msg.senderId msg.receiverId).2 msg.senderId
        msg.receiverId msg.message msg.time (msg.repliedMessage.getD "")
        msg.repliedMessageId msg.date msg.attachedFile msg.isRead =
      Except.error e) :
    readPumpStep db u raw (some msg) =
      ((resolveChat db msg.senderId msg.receiverId).1,
       [Effect.errorReply u e]) ∧
    (readPumpStep db u raw (some msg)).1.messages = db.messages ∧
    (∀ p, Effect.broadcast p ∉ (readPumpStep db u raw (some msg)).2) ∧
    ∀ rest, readPump db u (⟨raw, some msg⟩ :: rest) =
      ((readPump (resolveChat db msg.senderId msg.receiverId).1 u rest).1,
       Effect.errorReply u e ::
         (readPump (resolveChat db msg.senderId msg.receiverId).1 u rest).2) := by
  subst hs
  have h1 : readPumpStep db msg.senderId raw (some msg) =
      ((resolveChat db msg.senderId msg.receiverId).1,
       [Effect.errorReply msg.senderId e]) := by
    simp only [readPumpStep, bne_self_eq_false, Bool.false_eq_true, if_false]
    rw [he]
  refine ⟨h1, ?_, ?_, fun rest => ?_⟩
  · rw [h1]
    exact resolveChat_messages db msg.senderId msg.receiverId
  · rw [h1]
    simp
  · rw [readPump_cons]
    simp [h1]

theorem persistence_failure_error_reply_only_witness :
    readPumpStep ⟨[], [], 1⟩ 10 "RAW"
        (some ⟨"chat", 0, 10, 20, "hi", "14:00", none, none, "bad", none, false⟩) =
      ((resolveChat ⟨[], [], 1⟩ 10 20).1,
       [Effect.errorReply 10
          (ChatError.dateConversion "invalid date format, expected yyyy-MM-dd")]) :=
  (persistence_failure_error_reply_only ⟨[], [], 1⟩ 10 "RAW"
    ⟨"chat", 0, 10, 20, "hi", "14:00", none, none, "bad", none, false⟩
    (ChatError.dateConversion "invalid date format, expected yyyy-MM-dd")
    rfl (by rfl)).1

/-- C6: on the success path the payload handed to the hub's broadcast
channel is the raw frame exactly as received on the socket
(controllers/chats.go:187), not a re-encoding of the decoded structure,
even though the router stamped the resolved chat id onto its decoded
copy before persisting (controllers/chats.go:167): the persisted row's
chat id is the resolved thread id. -/
theorem broadcast_payload_is_raw_frame (db : Store) (u : Int) (raw : String)
    (msg : WSMessage) (db2 : Store)
    (hs : msg.senderId = u)
    (hok : AddMessage (resolveChat db msg.senderId msg.receiverId).1
        (resolveChat db msg.senderId msg.receiverId).2 msg.senderId
        msg.receiverId msg.message msg.time (msg.repliedMessage.getD "")
        msg.repliedMessageId msg.date msg.attachedFile msg.isRead =
      Except.ok db2) :
    (readPumpStep db u raw (some msg)).2 = [Effect.broadcast raw] ∧
    (readPumpStep db u raw (some msg)).1 = db2 ∧
    db2.messages.getLast?.map (fun row => row.chatId) =
      some (resolveChat db msg.senderId msg.receiverId).2 := by
  subst hs
  have h1 : readPumpStep db msg.senderId raw (some msg) =
      (db2, [Effect.broadcast raw]) := by
    simp only [readPumpStep, bne_self_eq_false, Bool.false_eq_true, if_false]
    rw [hok]
  refine ⟨by rw [h1], by rw [h1], ?_⟩
  have hce := ChatExists_resolveChat db msg.senderId msg.receiverId
  unfold AddMessage at hok
  cases hg : SolarToGregorian msg.date with
  | error e =>
    rw [hg] at hok
    exact absurd hok (by simp)
  | ok g =>
    rw [hg] at hok
    simp only [hce] at hok
    by_cases hz : ((resolveChat db msg.senderId msg.receiverId).2 == 0) = true
    · simp [hz] at hok
    · simp only [hz, Bool.false_eq_true, if_false, bne_self_eq_false,
        Bool.and_false, if_false] at hok
      cases hok
      simp [List.getLast?_concat]

theorem broadcast_payload_is_raw_frame_witness :
    (readPumpStep ⟨[], [], 1⟩ 10 "RAW"
        (some ⟨"chat", 0, 10, 20, "hi", "14:00", none, none, "1403-05-01",
          none, false⟩)).2 = [Effect.broadcast "RAW"] :=
  (broadcast_payload_is_raw_frame ⟨[], [], 1⟩ 10 "RAW"
    ⟨"chat", 0, 10, 20, "hi", "14:00", none, none, "1403-05-01", none, false⟩
    ⟨[⟨1, 10, 20⟩],
     [⟨1, 10, 20, "hi", "14:00", "", none, (1403, 5, 1), none, false⟩], 2⟩
    rfl (by rfl)).1

/-- C9: `AddMessage` validates the chat id against the store before
writing (models/chat.go:96-109): with the date conversion succeeding, if
no chat row exists between sender and receiver it fails with a
`noChatExists` error and inserts nothing; if the caller-supplied chat id
is nonzero and differs from the looked-up chat's id it fails with a
`chatIdMismatch` error and inserts nothing; otherwise exactly one row is
inserted against the looked-up chat id, regardless of the supplied id
(an error result carries no store, so the caller's store is unchanged). -/
theorem AddMessage_chat_validation (db : Store)
    (chatID senderID receiverID : Int)
    (text timeStr repliedMessage : String) (repliedMessageID : Option Int)
    (hijriDate : String) (attachedFile : Option File) (isRead : Bool)
    (g : Int × Int × Int) (hdate : SolarToGregorian hijriDate = Except.ok g) :
    (ChatExists db senderID receiverID = 0 →
      AddMessage db chatID senderID receiverID text timeStr repliedMessage
          repliedMessageID hijriDate attachedFile isRead =
        Except.error (ChatError.noChatExists senderID receiverID)) ∧
    (ChatExists db senderID receiverID ≠ 0 → chatID ≠ 0 →
      chatID ≠ ChatExists db senderID receiverID →
      AddMessage db chatID senderID receiverID text timeStr repliedMessage
          repliedMessageID hijriDate attachedFile isRead =
        Except.error
          (ChatError.chatIdMismatch chatID (ChatExists db senderID receiverID))) ∧
    (ChatExists db senderID receiverID ≠ 0 →
      (chatID = 0 ∨ chatID = ChatExists db senderID receiverID) →
      AddMessage db chatID senderID receiverID text timeStr repliedMessage
          repliedMessageID hijriDate attachedFile isRead =
        Except.ok { db with messages := db.messages ++
          [⟨ChatExists db senderID receiverID, senderID, receiverID, text,
            timeStr, repliedMessage, repliedMessageID, g,
            attachedFile.map (fun f => f.url), isRead⟩] }) := by
  refine ⟨fun h0 => ?_, fun hne hcz hcm => ?_, fun hne hok => ?_⟩
  · simp [AddMessage, hdate, h0]
  · simp [AddMessage, hdate, hne, hcz, hcm]
  · rcases hok with rfl | rfl
    · simp [AddMessage, hdate, hne]
    · simp [AddMessage, hdate, hne]

theorem AddMessage_chat_validation_witness :
    AddMessage ⟨[], [], 1⟩ 0 10 20 "hi" "14:00" "" none "1403-05-01" none
        false =
      Except.error (ChatError.noChatExists 10 20) :=
  (AddMessage_chat_validation ⟨[], [], 1⟩ 0 10 20 "hi" "14:00" "" none
    "1403-05-01" none false (1403, 5, 1) (by rfl)).1 (by rfl)

/-- C10: `AddMessage` converts the solar date string before any database
write (models/chat.go:86-94): any envelope whose date fails the
conversion makes `AddMessage` return a `dateConversion` error without
inserting anything, so on the router a malformed client-supplied date
takes the persistence-failure path — a structured error frame back to
the originating connection, message table unchanged, no broadcast —
rather than the silent decode-drop path. -/
theorem malformed_date_persistence_error_path :
    (∀ (db : Store) (chatID senderID receiverID : Int)
       (text timeStr repliedMessage : String) (repliedMessageID : Option Int)
       (hijriDate : String) (attachedFile : Option File) (isRead : Bool)
       (e : String),
      SolarToGregorian hijriDate = Except.error e →
      AddMessage db chatID senderID receiverID text timeStr repliedMessage
          repliedMessageID hijriDate attachedFile isRead =
        Except.error (ChatError.dateConversion e)) ∧
    (∀ (db : Store) (u : Int) (raw : String) (msg : WSMessage) (e : String),
      msg.senderId = u → SolarToGregorian msg.date = Except.error e →
      (readPumpStep db u raw (some msg)).2 =
        [Effect.errorReply u (ChatError.dateConversion e)] ∧
      (readPumpStep db u raw (some msg)).1.messages = db.messages ∧
      ∀ p, Effect.broadcast p ∉ (readPumpStep db u raw (some msg)).2) := by
  have part1 : ∀ (db : Store) (chatID senderID receiverID : Int)
      (text timeStr repliedMessage : String) (repliedMessageID : Option Int)
      (hijriDate : String) (attachedFile : Option File) (isRead : Bool)
      (e : String),
      SolarToGregorian hijriDate = Except.error e →
      AddMessage db chatID senderID receiverID text timeStr repliedMessage
          repliedMessageID hijriDate attachedFile isRead =
        Except.error (ChatError.dateConversion e) := by
    intro db chatID senderID receiverID text timeStr repliedMessage
      repliedMessageID hijriDate attachedFile isRead e herr
    simp [AddMessage, herr]
  refine ⟨part1, ?_⟩
  intro db u raw msg e hs herr
  subst hs
  have h1 : readPumpStep db msg.senderId raw (some msg) =
      ((resolveChat db msg.senderId msg.receiverId).1,
       [Effect.errorReply msg.senderId (ChatError.dateConversion e)]) := by
    simp only [readPumpStep, bne_self_eq_false, Bool.false_eq_true, if_false]
    rw [part1 _ _ _ _ _ _ _ _ _ _ _ _ herr]
  exact ⟨by rw [h1], by rw [h1]; exact resolveChat_messages _ _ _,
    by rw [h1]; simp⟩

theorem malformed_date_persistence_error_path_witness :
    (readPumpStep ⟨[], [], 1⟩ 10 "RAW"
        (some ⟨"chat", 0, 10, 20, "hi", "14:00", none, none, "1403-13-01",
          none, false⟩)).2 =
      [Effect.errorReply 10 (ChatError.dateConversion "invalid month: 13")] :=
  (malformed_date_persistence_error_path.2 ⟨[], [], 1⟩ 10 "RAW"
    ⟨"chat", 0, 10, 20, "hi", "14:00", none, none, "1403-13-01", none, false⟩
    "invalid month: 13" rfl (by rfl)).1

theorem readPumpStep_fresh_pair (db : Store) (u : Int) (raw : String)
    (msg : WSMessage) (g : Int × Int × Int)
    (hno : ∀ row ∈ db.chats, pairMatch row msg.senderId msg.receiverId = false)
    (hpos : 0 < db.nextChatId)
    (hs : msg.senderId = u)
    (hd : SolarToGregorian msg.date = Except.ok g) :
    readPumpStep db u raw (some msg) =
      (⟨db.chats ++ [⟨db.nextChatId, msg.senderId, msg.receiverId⟩],
        db.messages ++
          [⟨db.nextChatId, msg.senderId, msg.receiverId, msg.message, msg.time,
            msg.repliedMessage.getD "", msg.repliedMessageId, g,
            msg.attachedFile.map (fun f => f.url), msg.isRead⟩],
        db.nextChatId + 1⟩,
       [Effect.broadcast raw]) := by
  subst hs
  have hfc : findChat db msg.senderId msg.receiverId = none := by
    unfold findChat
    rw [List.find?_eq_none]
    intro row hrow
    simp [hno row hrow]
  have hce : ChatExists db msg.senderId msg.receiverId = 0 := by
    simp [ChatExists, hfc]
  have hres : resolveChat db msg.senderId msg.receiverId =
      (⟨db.chats ++ [⟨db.nextChatId, msg.senderId, msg.receiverId⟩],
        db.messages, db.nextChatId + 1⟩, db.nextChatId) := by
    simp [resolveChat, hce, CreateChat, hfc]
  have hnz : db.nextChatId ≠ 0 := by omega
  have hce1 : ChatExists
      (⟨db.chats ++ [⟨db.nextChatId, msg.senderId, msg.receiverId⟩],
        db.messages, db.nextChatId + 1⟩ : Store)
      msg.senderId msg.receiverId = db.nextChatId := by
    unfold ChatExists findChat at hfc ⊢
    rw [List.find?_append, hfc, Option.none_or]
    simp [pairMatch]
  have hadd : AddMessage
      (⟨db.chats ++ [⟨db.nextChatId, msg.senderId, msg.receiverId⟩],
        db.messages, db.nextChatId + 1⟩ : Store)
      db.nextChatId msg.senderId msg.receiverId msg.message msg.time
      (msg.repliedMessage.getD "") msg.repliedMessageId msg.date
      msg.attachedFile msg.isRead =
      Except.ok
        ⟨db.chats ++ [⟨db.nextChatId, msg.senderId, msg.receiverId⟩],
         db.messages ++
           [⟨db.nextChatId, msg.senderId, msg.receiverId, msg.message,
             msg.time, msg.repliedMessage.getD "", msg.repliedMessageId, g,
             msg.attachedFile.map (fun f => f.url), msg.isRead⟩],
         db.nextChatId + 1⟩ := by
    simp [AddMessage, hd, hce1, hnz]
  simp only [readPumpStep, bne_self_eq_false, Bool.false_eq_true, if_false,
    hres]
  rw [hadd]

theorem readPumpStep_existing_pair (db : Store) (u : Int) (raw : String)
    (msg : WSMessage) (g : Int × Int × Int) (row : ChatRow)
    (hfc : findChat db msg.senderId msg.receiverId = some row)
    (hrow : row.id ≠ 0)
    (hs : msg.senderId = u)
    (hd : SolarToGregorian msg.date = Except.ok g) :
    readPumpStep db u raw (some msg) =
      (⟨db.chats,
        db.messages ++
          [⟨row.id, msg.senderId, msg.receiverId, msg.message, msg.time,
            msg.repliedMessage.getD "", msg.repliedMessageId, g,
            msg.attachedFile.map (fun f => f.url), msg.isRead⟩],
        db.nextChatId⟩,
       [Effect.broadcast raw]) := by
  subst hs
  have hce : ChatExists db msg.senderId msg.receiverId = row.id := by
    simp [ChatExists, hfc]
  have hres : resolveChat db msg.senderId msg.receiverId = (db, row.id) := by
    simp [resolveChat, hce, hrow]
  have hadd : AddMessage db row.id msg.senderId msg.receiverId msg.message
      msg.time (msg.repliedMessage.getD "") msg.repliedMessageId msg.date
      msg.attachedFile msg.isRead =
      Except.ok
        ⟨db.chats,
         db.messages ++
           [⟨row.id, msg.senderId, msg.receiverId, msg.message, msg.time,
             msg.repliedMessage.getD "", msg.repliedMessageId, g,
             msg.attachedFile.map (fun f => f.url), msg.isRead⟩],
         db.nextChatId⟩ := by
    simp [AddMessage, hd, hce, hrow]
  simp only [readPumpStep, bne_self_eq_false, Bool.false_eq_true, if_false,
    hres]
  rw [hadd]

/-- C5: at most one chat thread per unordered participant pair — the
lookup checks both orderings (`ChatExists` is symmetric in sender and
receiver); `CreateChat` returns the existing row's id instead of
inserting a second row when one exists for the pair; and processing a
first message for (A,B) followed by a first message for (B,A) on a
store with no chat for the pair creates exactly one chat row, with both
persisted messages carrying that single thread's id. -/
theorem chat_thread_unique_per_pair :
    (∀ (db : Store) (a b : Int), ChatExists db a b = ChatExists db b a) ∧
    (∀ (db : Store) (s r : Int) (row : ChatRow),
      findChat db s r = some row → CreateChat db s r = (db, row.id)) ∧
    (∀ (db : Store) (A B : Int) (raw1 raw2 : String) (msg1 msg2 : WSMessage)
       (g1 g2 : Int × Int × Int),
      (∀ row ∈ db.chats, pairMatch row A B = false) →
      0 < db.nextChatId →
      msg1.senderId = A → msg1.receiverId = B →
      msg2.senderId = B → msg2.receiverId = A →
      SolarToGregorian msg1.date = Except.ok g1 →
      SolarToGregorian msg2.date = Except.ok g2 →
      (readPumpStep (readPumpStep db A raw1 (some msg1)).1 B raw2
          (some msg2)).1.chats = db.chats ++ [⟨db.nextChatId, A, B⟩] ∧
      (readPumpStep (readPumpStep db A raw1 (some msg1)).1 B raw2
          (some msg2)).1.messages = db.messages ++
        [⟨db.nextChatId, A, B, msg1.message, msg1.time,
          msg1.repliedMessage.getD "", msg1.repliedMessageId, g1,
          msg1.attachedFile.map (fun f => f.url), msg1.isRead⟩,
         ⟨db.nextChatId, B, A, msg2.message, msg2.time,
          msg2.repliedMessage.getD "", msg2.repliedMessageId, g2,
          msg2.attachedFile.map (fun f => f.url), msg2.isRead⟩]) := by
  refine ⟨?_, ?_, ?_⟩
  · intro db a b
    unfold ChatExists findChat
    rw [show (fun row => pairMatch row a b) = (fun row => pairMatch row b a)
      from funext (fun row => pairMatch_symm row a b)]
  · intro db s r row h
    simp [CreateChat, h]
  · intro db A B raw1 raw2 msg1 msg2 g1 g2 hno hpos hs1 hr1 hs2 hr2 hd1 hd2
    have hno1 : ∀ row ∈ db.chats,
        pairMatch row msg1.senderId msg1.receiverId = false := by
      rw [hs1, hr1]; exact hno
    have hstep1 := readPumpStep_fresh_pair db A raw1 msg1 g1 hno1 hpos hs1 hd1
    rw [hstep1]
    have hfc2 : findChat
        (⟨db.chats ++ [⟨db.nextChatId, msg1.senderId, msg1.receiverId⟩],
          db.messages ++
            [⟨db.nextChatId, msg1.senderId, msg1.receiverId, msg1.message,
              msg1.time, msg1.repliedMessage.getD "", msg1.repliedMessageId,
              g1, msg1.attachedFile.map (fun f => f.url), msg1.isRead⟩],
          db.nextChatId + 1⟩ : Store)
        msg2.senderId msg2.receiverId =
        some ⟨db.nextChatId, msg1.senderId, msg1.receiverId⟩ := by
      unfold findChat
      rw [List.find?_append]
      have hleft : List.find?
          (fun row => pairMatch row msg2.senderId msg2.receiverId)
          db.chats = none := by
        rw [List.find?_eq_none]
        intro row hrow
        have := hno row hrow
        rw [hs2, hr2]
        simp [pairMatch_symm row B A, this]
      rw [hleft, Option.none_or]
      have hpm : pairMatch ⟨db.nextChatId, msg1.senderId, msg1.receiverId⟩
          msg2.senderId msg2.receiverId = true := by
        rw [hs1, hr1, hs2, hr2, pairMatch_symm]
        exact pairMatch_self_left db.nextChatId A B
      simp [hpm]
    have hrow2 : (⟨db.nextChatId, msg1.senderId, msg1.receiverId⟩ :
        ChatRow).id ≠ 0 := by
      simp
      omega
    have hstep2 := readPumpStep_existing_pair
      (⟨db.chats ++ [⟨db.nextChatId, msg1.senderId, msg1.receiverId⟩],
        db.messages ++
          [⟨db.nextChatId, msg1.senderId, msg1.receiverId, msg1.message,
            msg1.time, msg1.repliedMessage.getD "", msg1.repliedMessageId,
            g1, msg1.attachedFile.map (fun f => f.url), msg1.isRead⟩],
        db.nextChatId + 1⟩ : Store)
      B raw2 msg2 g2 ⟨db.nextChatId, msg1.senderId, msg1.receiverId⟩
      hfc2 hrow2 hs2 hd2
    rw [hstep2]
    constructor
    · rw [hs1, hr1]
    · rw [hs1, hr1, hs2, hr2]
      simp

theorem chat_thread_unique_per_pair_witness :
    (readPumpStep (readPumpStep ⟨[], [], 1⟩ 10 "RAW1"
        (some ⟨"chat", 0, 10, 20, "hi", "14:00", none, none, "1403-05-01",
          none, false⟩)).1 20 "RAW2"
        (some ⟨"chat", 0, 20, 10, "yo", "14:01", none, none, "1403-05-02",
          none, false⟩)).1.chats = [] ++ [⟨1, 10, 20⟩] ∧
    (readPumpStep (readPumpStep ⟨[], [], 1⟩ 10 "RAW1"
        (some ⟨"chat", 0, 10, 20, "hi", "14:00", none, none, "1403-05-01",
          none, false⟩)).1 20 "RAW2"
        (some ⟨"chat", 0, 20, 10, "yo", "14:01", none, none, "1403-05-02",
          none, false⟩)).1.messages = [] ++
      [⟨1, 10, 20, "hi", "14:00", "", none, (1403, 5, 1), none, false⟩,
       ⟨1, 20, 10, "yo", "14:01", "", none, (1403, 5, 2), none, false⟩] :=
  chat_thread_unique_per_pair.2.2 ⟨[], [], 1⟩ 10 20 "RAW1" "RAW2"
    ⟨"chat", 0, 10, 20, "hi", "14:00", none, none, "1403-05-01", none, false⟩
    ⟨"chat", 0, 20, 10, "yo", "14:01", none, none, "1403-05-02", none, false⟩
    (1403, 5, 1) (1403, 5, 2) (by simp) (by decide) rfl rfl rfl rfl
    (by rfl) (by rfl)

/-- C8 counterexample: the shutdown loop of `main` (cmd/main.go:77-79)
run on a registry holding one registered connection leaves the hub state
completely unchanged — the connection is still registered afterwards and
its outbound channel still exists untouched in the registry — and the
only action performed is the socket close.  This contradicts the claim
that each connection "is removed from the registry with its outbound
channel closed" on shutdown. -/
theorem shutdown_claim_counterexample :
    (shutdownAll ⟨[(7, newChan)]⟩).1 = ⟨[(7, newChan)]⟩ ∧
    registered (shutdownAll ⟨[(7, newChan)]⟩).1 7 = true ∧
    (shutdownAll ⟨[(7, newChan)]⟩).2 = [ShutdownAct.closeSocket 7] :=
  ⟨rfl, rfl, rfl⟩

/-- C8 (amended): on process shutdown the loop in `main`
(cmd/main.go:77-79) closes the socket of every connection in the
registry snapshot, but it does not remove any connection from the
registry and does not close any outbound channel — the hub state is
unchanged; unregistration is left to each connection's read pump, which
only runs later when its socket read fails. -/
theorem shutdown_closes_sockets_registry_unchanged (h : HubState) (c : Nat)
    (hc : registered h c = true) :
    ShutdownAct.closeSocket c ∈ (shutdownAll h).2 ∧ (shutdownAll h).1 = h := by
  refine ⟨?_, rfl⟩
  simp only [registered, List.any_eq_true] at hc
  obtain ⟨p, hp, hpc⟩ := hc
  simp only [shutdownAll, List.mem_map]
  refine ⟨p, hp, ?_⟩
  simp only [beq_iff_eq] at hpc
  rw [hpc]

theorem shutdown_closes_sockets_registry_unchanged_witness :
    ShutdownAct.closeSocket 7 ∈ (shutdownAll ⟨[(7, newChan)]⟩).2 ∧
    (shutdownAll ⟨[(7, newChan)]⟩).1 = ⟨[(7, newChan)]⟩ :=
  shutdown_closes_sockets_registry_unchanged ⟨[(7, newChan)]⟩ 7 (by decide)

theorem registered_true_iff (l : List (Nat × Chan)) (c : Nat) :
    registered ⟨l⟩ c = true ↔ c ∈ l.map Prod.fst := by
  simp [registered, List.any_eq_true, List.mem_map, beq_iff_eq]

theorem registered_false_iff (l : List (Nat × Chan)) (c : Nat) :
    registered ⟨l⟩ c = false ↔ c ∉ l.map Prod.fst := by
  rw [← registered_true_iff]
  cases hb : registered ⟨l⟩ c <;> simp [hb]

theorem broadcastAll_keys_sublist (m : String) (l : List (Nat × Chan)) :
    ((broadcastAll m l).1.map Prod.fst).Sublist (l.map Prod.fst) := by
  induction l with
  | nil => simp [broadcastAll]
  | cons p rest ih =>
    by_cases hp : p.2.buf.length < p.2.cap
    · simp only [broadcastAll, if_pos hp, List.map_cons]
      exact ih.cons₂ p.1
    · simp only [broadcastAll, if_neg hp, List.map_cons]
      exact ih.cons p.1

theorem broadcastAll_mem_free (m : String) (c : Nat) (ch : Chan)
    (hfree : ch.buf.length < ch.cap) :
    ∀ l : List (Nat × Chan), (c, ch) ∈ l →
      (c, ⟨ch.buf ++ [m], ch.cap⟩) ∈ (broadcastAll m l).1 ∧
      HAct.enqueue c m ∈ (broadcastAll m l).2 := by
  intro l
  induction l with
  | nil => intro hmem; cases hmem
  | cons p rest ih =>
    intro hmem
    rcases List.mem_cons.mp hmem with heq | hmem'
    · cases heq
      simp only [broadcastAll, if_pos hfree]
      exact ⟨List.mem_cons_self _ _, List.mem_cons_self _ _⟩
    · have hrec := ih hmem'
      by_cases hp : p.2.buf.length < p.2.cap
      · simp only [broadcastAll, if_pos hp]
        exact ⟨List.mem_cons_of_mem _ hrec.1, List.mem_cons_of_mem _ hrec.2⟩
      · simp only [broadcastAll, if_neg hp]
        exact ⟨hrec.1, List.mem_cons_of_mem _ hrec.2⟩

theorem broadcastAll_mem_full (m : String) (c : Nat) (ch : Chan)
    (hfull : ch.cap ≤ ch.buf.length) :
    ∀ l : List (Nat × Chan), (l.map Prod.fst).Nodup → (c, ch) ∈ l →
      c ∉ (broadcastAll m l).1.map Prod.fst ∧
      HAct.close c ∈ (broadcastAll m l).2 := by
  intro l
  induction l with
  | nil => intro _ hmem; cases hmem
  | cons p rest ih =>
    intro hnd hmem
    rw [List.map_cons] at hnd
    have hnd2 := List.nodup_cons.mp hnd
    rcases List.mem_cons.mp hmem with heq | hmem'
    · cases heq
      have hnlt : ¬ ch.buf.length < ch.cap := not_lt.mpr hfull
      simp only [broadcastAll, if_neg hnlt]
      refine ⟨fun hin => ?_, List.mem_cons_self _ _⟩
      exact hnd2.1 ((broadcastAll_keys_sublist m rest).mem hin)
    · have hrec := ih hnd2.2 hmem'
      have hne : p.1 ≠ c := by
        intro hpc
        exact hnd2.1 (hpc ▸ List.mem_map_of_mem Prod.fst hmem')
      by_cases hp : p.2.buf.length < p.2.cap
      · simp only [broadcastAll, if_pos hp, List.map_cons]
        refine ⟨fun hin => ?_, List.mem_cons_of_mem _ hrec.2⟩
        rcases List.mem_cons.mp hin with h | h
        · exact hne h.symm
        · exact hrec.1 h
      · simp only [broadcastAll, if_neg hp]
        exact ⟨hrec.1, List.mem_cons_of_mem _ hrec.2⟩

/-- C1: the broadcast arm of `Hub.Run` (controllers/chats.go:64-72) is a
total per-event function (it never blocks waiting on a recipient), and
for each registered connection: if its outbound channel has free
capacity the payload is enqueued on that channel and the connection
stays registered with exactly the payload appended; if its channel is
full the connection is dropped — its channel is closed and it is removed
from the registry — while every other (free-capacity) connection still
receives the payload via its own instance of the first conjunct. -/
theorem hub_broadcast_nonblocking (h : HubState) (m : String) (c : Nat)
    (ch : Chan) (hnd : WFHub h) (hmem : (c, ch) ∈ h.clients) :
    (ch.buf.length < ch.cap →
      (c, ⟨ch.buf ++ [m], ch.cap⟩) ∈
          (hubStep h (HubEvent.broadcast m)).1.clients ∧
      HAct.enqueue c m ∈ (hubStep h (HubEvent.broadcast m)).2) ∧
    (ch.cap ≤ ch.buf.length →
      registered (hubStep h (HubEvent.broadcast m)).1 c = false ∧
      HAct.close c ∈ (hubStep h (HubEvent.broadcast m)).2) := by
  constructor
  · intro hfree
    have hres := broadcastAll_mem_free m c ch hfree h.clients hmem
    simpa [hubStep] using hres
  · intro hfull
    have hres := broadcastAll_mem_full m c ch hfull h.clients hnd hmem
    constructor
    · simp only [hubStep]
      exact (registered_false_iff _ c).mpr hres.1
    · simpa [hubStep] using hres.2

theorem hub_broadcast_nonblocking_witness :
    (HAct.enqueue 1 "m" ∈
      (hubStep ⟨[(1, ⟨[], 2⟩), (2, ⟨["a", "b"], 2⟩)]⟩
        (HubEvent.broadcast "m")).2) ∧
    registered (hubStep ⟨[(1, ⟨[], 2⟩), (2, ⟨["a", "b"], 2⟩)]⟩
        (HubEvent.broadcast "m")).1 2 = false ∧
    HAct.close 2 ∈ (hubStep ⟨[(1, ⟨[], 2⟩), (2, ⟨["a", "b"], 2⟩)]⟩
        (HubEvent.broadcast "m")).2 :=
  ⟨((hub_broadcast_nonblocking ⟨[(1, ⟨[], 2⟩), (2, ⟨["a", "b"], 2⟩)]⟩ "m" 1
      ⟨[], 2⟩ (by decide) (by decide)).1 (by decide)).2,
   ((hub_broadcast_nonblocking ⟨[(1, ⟨[], 2⟩), (2, ⟨["a", "b"], 2⟩)]⟩ "m" 2
      ⟨["a", "b"], 2⟩ (by decide) (by decide)).2 (by decide)).1,
   ((hub_broadcast_nonblocking ⟨[(1, ⟨[], 2⟩), (2, ⟨["a", "b"], 2⟩)]⟩ "m" 2
      ⟨["a", "b"], 2⟩ (by decide) (by decide)).2 (by decide)).2⟩

theorem closes_append (c : Nat) (t1 t2 : List HAct) :
    closes c (t1 ++ t2) = closes c t1 + closes c t2 :=
  List.countP_append _ _ _

theorem touchCount_append (c : Nat) (t1 t2 : List HAct) :
    touchCount c (t1 ++ t2) = touchCount c t1 + touchCount c t2 :=
  List.countP_append _ _ _

theorem closes_le_touchCount (c : Nat) (t : List HAct) :
    closes c t ≤ touchCount c t := by
  induction t with
  | nil => exact Nat.le_refl 0
  | cons a rest ih =>
    simp only [closes, touchCount, List.countP_cons] at ih ⊢
    by_cases hc : isCloseOf c a = true
    · have ht : touchesOf c a = true := by simp [touchesOf, hc]
      simp [hc, ht]
      omega
    · simp only [hc, if_false]
      by_cases ht : touchesOf c a = true <;> simp [ht] <;> omega

theorem untouched_all (c : Nat) (t : List HAct) (h : touchCount c t = 0) :
    ∀ a ∈ t, touchesOf c a = false := by
  intro a ha
  have := List.countP_eq_zero.mp h a ha
  simpa using this

theorem noEnq_of_untouched (c : Nat) : ∀ t : List HAct,
    touchCount c t = 0 → noEnqueueAfterClose c t = true := by
  intro t
  induction t with
  | nil => intro _; rfl
  | cons a rest ih =>
    intro h
    simp only [touchCount, List.countP_cons] at h
    have hrest : touchCount c rest = 0 := by
      simp only [touchCount]; omega
    have ha : touchesOf c a = false := by
      by_cases hta : touchesOf c a = true
      · simp [hta] at h
      · simpa using hta
    have hac : isCloseOf c a = false := by
      simp only [touchesOf, Bool.or_eq_false_iff] at ha
      exact ha.1
    simp only [noEnqueueAfterClose, hac, Bool.false_eq_true, if_false,
      Bool.true_and]
    exact ih hrest

theorem noEnq_append_few (c : Nat) : ∀ t1 t2 : List HAct,
    touchCount c t1 ≤ 1 → touchCount c t2 = 0 →
    noEnqueueAfterClose c (t1 ++ t2) = true := by
  intro t1
  induction t1 with
  | nil =>
    intro t2 _ h2
    exact noEnq_of_untouched c t2 h2
  | cons a rest ih =>
    intro t2 h1 h2
    simp only [touchCount, List.countP_cons] at h1
    by_cases hac : isCloseOf c a = true
    · have hta : touchesOf c a = true := by simp [touchesOf, hac]
      have hrest : touchCount c rest = 0 := by
        simp only [hta, if_true] at h1
        simp only [touchCount]
        omega
      have hall : touchCount c (rest ++ t2) = 0 := by
        rw [touchCount_append]
        omega
      simp only [List.cons_append, noEnqueueAfterClose, hac, if_true,
        Bool.and_eq_true]
      refine ⟨?_, noEnq_of_untouched c _ hall⟩
      rw [List.all_eq_true]
      intro b hb
      have htb := untouched_all c _ hall b hb
      simp only [touchesOf, Bool.or_eq_false_iff] at htb
      simp [htb.2]
    · have hrest : touchCount c rest ≤ 1 := by
        simp only [touchCount]
        omega
      simp only [List.cons_append, noEnqueueAfterClose, hac,
        Bool.false_eq_true, if_false, Bool.true_and]
      exact ih t2 hrest h2

theorem noEnq_append_noclose (c : Nat) : ∀ t1 t2 : List HAct,
    closes c t1 = 0 → noEnqueueAfterClose c t2 = true →
    noEnqueueAfterClose c (t1 ++ t2) = true := by
  intro t1
  induction t1 with
  | nil => intro t2 _ h2; exact h2
  | cons a rest ih =>
    intro t2 h1 h2
    simp only [closes, List.countP_cons] at h1
    have hac : isCloseOf c a = false := by
      by_cases h : isCloseOf c a = true
      · simp [h] at h1
      · simpa using h
    have hrest : closes c rest = 0 := by
      simp only [closes]
      omega
    simp only [List.cons_append, noEnqueueAfterClose, hac,
      Bool.false_eq_true, if_false, Bool.true_and]
    exact ih t2 hrest h2

theorem countKey_eq_zero (c : Nat) : ∀ l : List (Nat × Chan),
    c ∉ l.map Prod.fst → countKey c l = 0 := by
  intro l h
  rw [countKey, List.countP_eq_zero]
  intro p hp
  intro hpc
  apply h
  rw [List.mem_map]
  exact ⟨p, hp, by simpa using hpc⟩

theorem countKey_nodup (c : Nat) : ∀ l : List (Nat × Chan),
    (l.map Prod.fst).Nodup → c ∈ l.map Prod.fst → countKey c l = 1 := by
  intro l
  induction l with
  | nil => intro _ h; cases h
  | cons p rest ih =>
    intro hnd hmem
    rw [List.map_cons] at hnd hmem
    have hnd2 := List.nodup_cons.mp hnd
    simp only [countKey, List.countP_cons]
    rcases List.mem_cons.mp hmem with heq | hmem'
    · subst heq
      have hz : countKey p.1 rest = 0 := countKey_eq_zero p.1 rest hnd2.1
      simp only [countKey] at hz
      rw [hz]
      simp
    · have hne : (p.1 == c) = false := by
        have : p.1 ≠ c := fun h => hnd2.1 (h ▸ hmem')
        simpa using this
      have hone := ih hnd2.2 hmem'
      simp only [countKey] at hone
      simp [hne, hone]

theorem countKey_ne_zero_of_mem (c : Nat) (l : List (Nat × Chan))
    (hmem : c ∈ l.map Prod.fst) : countKey c l ≠ 0 := by
  intro h0
  rw [countKey, List.countP_eq_zero] at h0
  rcases List.mem_map.mp hmem with ⟨p, hp, hpc⟩
  exact h0 p hp (by simp [hpc])

theorem broadcastAll_touchCount (m : String) (c : Nat) :
    ∀ l : List (Nat × Chan),
      touchCount c (broadcastAll m l).2 = countKey c l := by
  intro l
  induction l with
  | nil => rfl
  | cons p rest ih =>
    by_cases hp : p.2.buf.length < p.2.cap
    · simp only [broadcastAll, if_pos hp]
      simp only [touchCount, countKey, List.countP_cons] at ih ⊢
      simp only [touchesOf, isCloseOf, isEnqueueOf, Bool.false_or]
      rw [ih]
    · simp only [broadcastAll, if_neg hp]
      simp only [touchCount, countKey, List.countP_cons] at ih ⊢
      simp only [touchesOf, isCloseOf, isEnqueueOf, Bool.or_false]
      rw [ih]

theorem closes_cons_enq (c d : Nat) (m : String) (t : List HAct) :
    closes c (HAct.enqueue d m :: t) = closes c t := by
  simp [closes, List.countP_cons, isCloseOf]

theorem closes_cons_close (c d : Nat) (t : List HAct) :
    closes c (HAct.close d :: t) =
      closes c t + (if (d == c) = true then 1 else 0) := by
  simp [closes, List.countP_cons, isCloseOf]

theorem countKey_cons (c d : Nat) (ch : Chan) (l : List (Nat × Chan)) :
    countKey c ((d, ch) :: l) =
      countKey c l + (if (d == c) = true then 1 else 0) := by
  simp [countKey, List.countP_cons]

theorem broadcastAll_closes_plus (m : String) (c : Nat) :
    ∀ l : List (Nat × Chan),
      closes c (broadcastAll m l).2 + countKey c (broadcastAll m l).1 =
        countKey c l := by
  intro l
  induction l with
  | nil => rfl
  | cons p rest ih =>
    by_cases hp : p.2.buf.length < p.2.cap
    · simp only [broadcastAll, if_pos hp]
      rw [closes_cons_enq, countKey_cons, countKey_cons c p.1 p.2 rest]
      omega
    · simp only [broadcastAll, if_neg hp]
      rw [closes_cons_close, countKey_cons c p.1 p.2 rest]
      omega

theorem hubStep_WF (h : HubState) (e : HubEvent) (hwf : WFHub h) :
    WFHub (hubStep h e).1 := by
  cases e with
  | register c =>
    by_cases hr : registered h c = true
    · simpa [hubStep, hr] using hwf
    · have hr' : registered h c = false := by simpa using hr
      simp only [hubStep, hr', Bool.false_eq_true, if_false]
      have hnotin : c ∉ h.clients.map Prod.fst :=
        (registered_false_iff _ c).mp hr'
      simp only [WFHub, List.map_append, List.map_cons, List.map_nil]
      rw [List.nodup_append]
      refine ⟨hwf, List.nodup_singleton c, ?_⟩
      intro a ha hc
      rw [List.mem_singleton.mp hc] at ha
      exact hnotin ha
  | unregister c =>
    by_cases hr : registered h c = true
    · simp only [hubStep, hr, if_true]
      exact List.Nodup.sublist
        (List.Sublist.map Prod.fst (List.filter_sublist _)) hwf
    · simpa [hubStep, hr] using hwf
  | broadcast m =>
    simp only [hubStep]
    exact List.Nodup.sublist (broadcastAll_keys_sublist m h.clients) hwf

theorem hubStep_untouched (h : HubState) (c : Nat) (e : HubEvent)
    (hreg : registered h c = false) (hne : isRegisterOf c e = false) :
    touchCount c (hubStep h e).2 = 0 ∧
    registered (hubStep h e).1 c = false := by
  cases e with
  | register d =>
    have hdc : (d == c) = false := by simpa [isRegisterOf] using hne
    by_cases hr : registered h d = true
    · exact ⟨by simp [hubStep, hr, touchCount], by simpa [hubStep, hr] using hreg⟩
    · have hr' : registered h d = false := by simpa using hr
      constructor
      · simp [hubStep, hr', touchCount]
      · simp only [hubStep, hr', Bool.false_eq_true, if_false]
        rw [registered_false_iff]
        rw [List.map_append, List.map_cons, List.map_nil]
        intro hmem
        rcases List.mem_append.mp hmem with hl | hr2
        · exact (registered_false_iff _ _).mp hreg hl
        · have hd : d = c := (List.mem_singleton.mp hr2).symm
          rw [hd] at hdc
          simp at hdc
  | unregister d =>
    by_cases hdc : d = c
    · subst hdc
      exact ⟨by simp [hubStep, hreg, touchCount],
        by simp [hubStep, hreg]⟩
    · by_cases hr : registered h d = true
      · constructor
        · simp [hubStep, hr, touchCount, List.countP_cons, touchesOf,
            isCloseOf, isEnqueueOf, hdc]
        · simp only [hubStep, hr, if_true]
          rw [registered_false_iff] at hreg ⊢
          intro hmem
          exact hreg
            ((List.Sublist.map Prod.fst (List.filter_sublist _)).mem hmem)
      · have hr' : registered h d = false := by simpa using hr
        exact ⟨by simp [hubStep, hr', touchCount],
          by simpa [hubStep, hr'] using hreg⟩
  | broadcast m =>
    have hkeys : c ∉ h.clients.map Prod.fst :=
      (registered_false_iff _ _).mp hreg
    have hk0 : countKey c h.clients = 0 := countKey_eq_zero c _ hkeys
    constructor
    · simp only [hubStep]
      rw [broadcastAll_touchCount m c h.clients, hk0]
    · simp only [hubStep]
      rw [registered_false_iff]
      intro hmem
      have hplus := broadcastAll_closes_plus m c h.clients
      have h1 : countKey c (broadcastAll m h.clients).1 ≠ 0 :=
        countKey_ne_zero_of_mem c _ hmem
      omega

theorem hubRun_cons (h : HubState) (e : HubEvent) (es : List HubEvent) :
    hubRun h (e :: es) =
      ((hubRun (hubStep h e).1 es).1,
       (hubStep h e).2 ++ (hubRun (hubStep h e).1 es).2) := rfl

theorem hubRun_append : ∀ (es1 es2 : List HubEvent) (h : HubState),
    hubRun h (es1 ++ es2) =
      ((hubRun (hubRun h es1).1 es2).1,
       (hubRun h es1).2 ++ (hubRun (hubRun h es1).1 es2).2) := by
  intro es1
  induction es1 with
  | nil => intro es2 h; rfl
  | cons e es ih =>
    intro es2 h
    simp only [List.cons_append, hubRun_cons, ih, List.append_assoc]

theorem hubRun_WF : ∀ (es : List HubEvent) (h : HubState),
    WFHub h → WFHub (hubRun h es).1 := by
  intro es
  induction es with
  | nil => intro h hwf; exact hwf
  | cons e es ih => intro h hwf; exact ih _ (hubStep_WF h e hwf)

theorem regEvents_cons_split (c : Nat) (e : HubEvent) (es : List HubEvent)
    (h : regEvents c (e :: es) = 0) :
    regEvents c es = 0 ∧ isRegisterOf c e = false := by
  simp only [regEvents, List.countP_cons] at h
  constructor
  · simp only [regEvents]; omega
  · by_cases hb : isRegisterOf c e = true
    · simp [hb] at h
    · simpa using hb

theorem run_untouched (c : Nat) : ∀ (es : List HubEvent) (h : HubState),
    registered h c = false → regEvents c es = 0 →
    touchCount c (hubRun h es).2 = 0 ∧
    registered (hubRun h es).1 c = false := by
  intro es
  induction es with
  | nil => intro h hreg _; exact ⟨rfl, hreg⟩
  | cons e es ih =>
    intro h hreg hre
    have hsplit := regEvents_cons_split c e es hre
    have hstep := hubStep_untouched h c e hreg hsplit.2
    have hrec := ih (hubStep h e).1 hstep.2 hsplit.1
    rw [hubRun_cons]
    exact ⟨by rw [touchCount_append, hstep.1, hrec.1], hrec.2⟩

theorem unregister_step_removes (h : HubState) (c : Nat)
    (hreg : registered h c = true) :
    (hubStep h (HubEvent.unregister c)).2 = [HAct.close c] ∧
    registered (hubStep h (HubEvent.unregister c)).1 c = false := by
  constructor
  · simp [hubStep, hreg]
  · simp only [hubStep, hreg, if_true]
    rw [registered_false_iff]
    intro hm
    rcases List.mem_map.mp hm with ⟨p, hp, hpc⟩
    have hf := (List.mem_filter.mp hp).2
    rw [hpc] at hf
    simp at hf

theorem register_step_adds (h : HubState) (c : Nat)
    (hreg : registered h c = false) :
    (hubStep h (HubEvent.register c)).2 = [] ∧
    registered (hubStep h (HubEvent.register c)).1 c = true := by
  constructor
  · simp [hubStep, hreg]
  · simp only [hubStep, hreg, Bool.false_eq_true, if_false]
    rw [registered_true_iff, List.map_append]
    exact List.mem_append_right _ (by simp)

theorem run_registered_dichotomy (c : Nat) :
    ∀ (es : List HubEvent) (h : HubState),
    WFHub h → registered h c = true → regEvents c es = 0 →
    closes c (hubRun h es).2 ≤ 1 ∧
    noEnqueueAfterClose c (hubRun h es).2 = true ∧
    (registered (hubRun h es).1 c = true → closes c (hubRun h es).2 = 0) ∧
    (registered (hubRun h es).1 c = false → closes c (hubRun h es).2 = 1) := by
  intro es
  induction es with
  | nil =>
    intro h hwf hreg _
    refine ⟨Nat.zero_le 1, rfl, fun _ => rfl, fun hf => ?_⟩
    simp only [hubRun] at hf
    rw [hreg] at hf
    cases hf
  | cons e es ih =>
    intro h hwf hreg hre
    have hsplit := regEvents_cons_split c e es hre
    have hwf2 := hubStep_WF h e hwf
    rw [hubRun_cons]
    cases e with
    | register d =>
      have hdc : (d == c) = false := by simpa [isRegisterOf] using hsplit.2
      have hstate : registered (hubStep h (HubEvent.register d)).1 c = true ∧
          (hubStep h (HubEvent.register d)).2 = [] := by
        by_cases hr : registered h d = true
        · exact ⟨by simpa [hubStep, hr] using hreg, by simp [hubStep, hr]⟩
        · have hr' : registered h d = false := by simpa using hr
          constructor
          · simp only [hubStep, hr', Bool.false_eq_true, if_false]
            rw [registered_true_iff, List.map_append]
            exact List.mem_append_left _ ((registered_true_iff _ _).mp hreg)
          · simp [hubStep, hr']
      have hrec := ih (hubStep h (HubEvent.register d)).1 hwf2 hstate.1
        hsplit.1
      rw [hstate.2]
      simpa using hrec
    | unregister d =>
      by_cases hdc : d = c
      · subst hdc
        have hstep := unregister_step_removes h d hreg
        have hrun := run_untouched d es _ hstep.2 hsplit.1
        have h20 : closes d (hubRun (hubStep h (HubEvent.unregister d)).1
            es).2 = 0 := by
          have := closes_le_touchCount d (hubRun
            (hubStep h (HubEvent.unregister d)).1 es).2
          omega
        have hc1 : closes d [HAct.close d] = 1 := by
          simp [closes, List.countP_cons, isCloseOf]
        refine ⟨?_, ?_, fun ht => ?_, fun _ => ?_⟩
        · rw [closes_append, hstep.1, hc1]
          omega
        · rw [hstep.1]
          apply noEnq_append_few
          · simp [touchCount, List.countP_cons, touchesOf, isCloseOf]
          · exact hrun.1
        · rw [hrun.2] at ht
          cases ht
        · rw [closes_append, hstep.1, hc1]
          omega
      · have hdc' : (d == c) = false := by simpa using hdc
        by_cases hr : registered h d = true
        · have hstep1 : (hubStep h (HubEvent.unregister d)).2 =
              [HAct.close d] := by simp [hubStep, hr]
          have hstep2 : registered (hubStep h (HubEvent.unregister d)).1 c =
              true := by
            simp only [hubStep, hr, if_true]
            rw [registered_true_iff] at hreg ⊢
            rcases List.mem_map.mp hreg with ⟨p, hp, hpc⟩
            rw [List.mem_map]
            refine ⟨p, List.mem_filter.mpr ⟨hp, ?_⟩, hpc⟩
            rw [hpc]
            simpa using fun hcd => hdc hcd.symm
          have hrec := ih _ hwf2 hstep2 hsplit.1
          have hc0 : closes c [HAct.close d] = 0 := by
            simp [closes, List.countP_cons, isCloseOf, hdc']
          refine ⟨?_, ?_, fun ht => ?_, fun hf => ?_⟩
          · rw [closes_append, hstep1, hc0]
            simpa using hrec.1
          · rw [hstep1]
            exact noEnq_append_noclose c _ _ hc0 hrec.2.1
          · rw [closes_append, hstep1, hc0, hrec.2.2.1 ht]
          · rw [closes_append, hstep1, hc0, hrec.2.2.2 hf]
        · have hr' : registered h d = false := by simpa using hr
          have hstep0 : hubStep h (HubEvent.unregister d) = (h, []) := by
            simp [hubStep, hr']
          rw [hstep0]
          simpa using ih h hwf hreg hsplit.1
    | broadcast m =>
      have hk1 : countKey c h.clients = 1 :=
        countKey_nodup c _ hwf ((registered_true_iff _ _).mp hreg)
      have htc : touchCount c (hubStep h (HubEvent.broadcast m)).2 = 1 := by
        simp only [hubStep]
        rw [broadcastAll_touchCount m c h.clients, hk1]
      have hplus : closes c (hubStep h (HubEvent.broadcast m)).2 +
          countKey c (hubStep h (HubEvent.broadcast m)).1.clients = 1 := by
        simp only [hubStep]
        rw [broadcastAll_closes_plus m c h.clients, hk1]
      by_cases hro : registered (hubStep h (HubEvent.broadcast m)).1 c = true
      · have hko : countKey c (hubStep h (HubEvent.broadcast m)).1.clients ≠
            0 := countKey_ne_zero_of_mem c _ ((registered_true_iff _ _).mp hro)
        have hcl0 : closes c (hubStep h (HubEvent.broadcast m)).2 = 0 := by
          omega
        have hrec := ih _ hwf2 hro hsplit.1
        refine ⟨?_, ?_, fun ht => ?_, fun hf => ?_⟩
        · rw [closes_append, hcl0]
          simpa using hrec.1
        · exact noEnq_append_noclose c _ _ hcl0 hrec.2.1
        · rw [closes_append, hcl0, hrec.2.2.1 ht]
        · rw [closes_append, hcl0, hrec.2.2.2 hf]
      · have hro' : registered (hubStep h (HubEvent.broadcast m)).1 c =
            false := by simpa using hro
        have hko : countKey c (hubStep h (HubEvent.broadcast m)).1.clients =
            0 := countKey_eq_zero c _ ((registered_false_iff _ _).mp hro')
        have hcl1 : closes c (hubStep h (HubEvent.broadcast m)).2 = 1 := by
          omega
        have hrun := run_untouched c es _ hro' hsplit.1
        have h20 : closes c (hubRun (hubStep h (HubEvent.broadcast m)).1
            es).2 = 0 := by
          have := closes_le_touchCount c (hubRun
            (hubStep h (HubEvent.broadcast m)).1 es).2
          omega
        refine ⟨?_, ?_, fun ht => ?_, fun _ => ?_⟩
        · rw [closes_append, hcl1]
          omega
        · exact noEnq_append_few c _ _ (by rw [htc]) hrun.1
        · rw [hrun.2] at ht
          cases ht
        · rw [closes_append, hcl1]
          omega

theorem run_unregister_mem (c : Nat) : ∀ (es : List HubEvent) (h : HubState),
    registered h c = true → regEvents c es = 0 →
    HubEvent.unregister c ∈ es →
    registered (hubRun h es).1 c = false := by
  intro es
  induction es with
  | nil => intro h _ _ hmem; cases hmem
  | cons e es ih =>
    intro h hreg hre hmem
    have hsplit := regEvents_cons_split c e es hre
    rw [hubRun_cons]
    by_cases hro : registered (hubStep h e).1 c = true
    · rcases List.mem_cons.mp hmem with heq | hmem'
      · have hfalse := (unregister_step_removes h c hreg).2
        rw [← heq] at hro
        rw [hfalse] at hro
        cases hro
      · exact ih _ hro hsplit.1 hmem'
    · have hro' : registered (hubStep h e).1 c = false := by simpa using hro
      exact (run_untouched c es _ hro' hsplit.1).2

theorem run_from_unregistered (c : Nat) :
    ∀ (es : List HubEvent) (h : HubState),
    WFHub h → registered h c = false → regEvents c es ≤ 1 →
    closes c (hubRun h es).2 ≤ 1 ∧
    noEnqueueAfterClose c (hubRun h es).2 = true := by
  intro es
  induction es with
  | nil => intro h _ _ _; exact ⟨Nat.zero_le 1, rfl⟩
  | cons e es ih =>
    intro h hwf hreg hre
    have hwf2 := hubStep_WF h e hwf
    rw [hubRun_cons]
    by_cases hbe : isRegisterOf c e = true
    · cases e with
      | register d =>
        have hd : d = c := by simpa [isRegisterOf] using hbe
        subst hd
        have hre2 : regEvents d es = 0 := by
          simp only [regEvents, List.countP_cons, isRegisterOf,
            beq_self_eq_true, if_true] at hre
          simp only [regEvents]
          omega
        have hstep := register_step_adds h d hreg
        have hrec := run_registered_dichotomy d es _ hwf2 hstep.2 hre2
        rw [hstep.1]
        exact ⟨by simpa using hrec.1, by simpa using hrec.2.1⟩
      | unregister d => simp [isRegisterOf] at hbe
      | broadcast m => simp [isRegisterOf] at hbe
    · have hbe' : isRegisterOf c e = false := by simpa using hbe
      have hre2 : regEvents c es ≤ 1 := by
        simp only [regEvents, List.countP_cons] at hre
        simp only [regEvents]
        omega
      have hstep := hubStep_untouched h c e hreg hbe'
      have hrec := ih _ hwf2 hstep.2 hre2
      have hcl0 : closes c (hubStep h e).2 = 0 := by
        have := closes_le_touchCount c (hubStep h e).2
        omega
      exact ⟨by rw [closes_append, hcl0]; simpa using hrec.1,
        noEnq_append_noclose c _ _ hcl0 hrec.2⟩

/-- C4: the unregister arm of `Hub.Run` (controllers/chats.go:58-63) is
idempotent — an `Unregister(c)` event for a connection absent from the
registry leaves the hub state unchanged and performs no channel action —
and along any event sequence processed by the hub loop (started empty)
in which connection `c` is registered at most once (as in the program,
where `ServeWs` sends each fresh `*Client` to the register channel
exactly once), `c`'s outbound channel is closed at most once, no enqueue
onto `c`'s channel ever happens after it is closed, and it is closed
exactly once whenever `c` is registered and an `Unregister(c)` event
follows the registration. -/
theorem unregister_idempotent_close_once :
    (∀ (h : HubState) (c : Nat), registered h c = false →
      hubStep h (HubEvent.unregister c) = (h, [])) ∧
    (∀ (es : List HubEvent) (c : Nat), regEvents c es ≤ 1 →
      closes c (hubRun ⟨[]⟩ es).2 ≤ 1 ∧
      noEnqueueAfterClose c (hubRun ⟨[]⟩ es).2 = true) ∧
    (∀ (es1 es2 : List HubEvent) (c : Nat),
      regEvents c (es1 ++ HubEvent.register c :: es2) ≤ 1 →
      HubEvent.unregister c ∈ es2 →
      closes c (hubRun ⟨[]⟩ (es1 ++ HubEvent.register c :: es2)).2 = 1) := by
  refine ⟨?_, ?_, ?_⟩
  · intro h c hreg
    simp [hubStep, hreg]
  · intro es c hre
    exact run_from_unregistered c es ⟨[]⟩ (by simp [WFHub]) rfl hre
  · intro es1 es2 c hre hmem
    have hcounts : regEvents c es1 = 0 ∧ regEvents c es2 = 0 := by
      simp only [regEvents, List.countP_append, List.countP_cons,
        isRegisterOf, beq_self_eq_true, if_true] at hre
      constructor <;> · simp only [regEvents]; omega
    have hwf0 : WFHub (⟨[]⟩ : HubState) := by simp [WFHub]
    have h1 := run_untouched c es1 ⟨[]⟩ rfl hcounts.1
    have hwf1 := hubRun_WF es1 ⟨[]⟩ hwf0
    have hstep := register_step_adds (hubRun ⟨[]⟩ es1).1 c h1.2
    have hwf2 := hubStep_WF (hubRun ⟨[]⟩ es1).1 (HubEvent.register c) hwf1
    have hdich := run_registered_dichotomy c es2 _ hwf2 hstep.2 hcounts.2
    have hfin := run_unregister_mem c es2 _ hstep.2 hcounts.2 hmem
    have h2 := hdich.2.2.2 hfin
    have h10 : closes c (hubRun ⟨[]⟩ es1).2 = 0 := by
      have := closes_le_touchCount c (hubRun ⟨[]⟩ es1).2
      omega
    rw [hubRun_append, hubRun_cons, closes_append, closes_append, hstep.1,
      h10, h2]
    rfl

theorem unregister_idempotent_close_once_witness :
    closes 1 (hubRun ⟨[]⟩ ([] ++ HubEvent.register 1 ::
      [HubEvent.broadcast "x", HubEvent.unregister 1,
       HubEvent.unregister 1])).2 = 1 ∧
    hubStep ⟨[]⟩ (HubEvent.unregister 1) = (⟨[]⟩, []) :=
  ⟨unregister_idempotent_close_once.2.2 []
    [HubEvent.broadcast "x", HubEvent.unregister 1, HubEvent.unregister 1] 1
    (by decide) (by decide),
   unregister_idempotent_close_once.1 ⟨[]⟩ 1 (by decide)⟩
